import Mathlib

/-!
Verification of the YT-music-downloader-by-telegram repository.

This file gives a shallow embedding, in Lean 4, of the pure decision logic of
the repository (`bot.py`, `downloader.py`) and proves the specified properties
about it.  Machine-level details that are irrelevant to the verified claims
(network transport, the Telegram API, the filesystem) are abstracted into
explicit inputs: every fallible external call becomes an `Except`/`Option`
value fed to the embedded function, and the observable behaviour (messages,
file deletions, audio sends) becomes an explicit event trace.
-/

namespace YTMD

/-! ## Playlist entries and track data (`bot.py`)

`get_playlist_info` is imported by `bot.py` but its definition is not part of
the provided sources; the shape of a playlist entry is modelled from the spec
(PlaylistInfo: entries carry id, title, duration only) and from the fields
`bot.py` itself reads (`entry['id']`, `entry['title']`, `entry['duration']`).
`duration` is a number of seconds; `0` models Python's falsy values
(`None`/`0`), which `format_duration` renders as `'--:--'`.
-/

structure Entry where
  id : String
  title : String
  duration : Nat
deriving DecidableEq, Repr

/-- Embeds `format_duration` (bot.py:120-126): `'--:--'` for a falsy duration,
otherwise `minutes:secs` with the seconds zero-padded to two digits. -/
def format_duration (seconds : Nat) : String :=
  if seconds = 0 then "--:--"
  else
    let secs := seconds % 60
    toString (seconds / 60) ++ ":" ++
      (if secs < 10 then "0" ++ toString secs else toString secs)

/-- The per-track summary sent to the Mini App (bot.py:129-136). -/
structure TrackData where
  id : String
  title : String
  duration : String
  thumb : String
deriving DecidableEq, Repr

/-- Embeds `build_track_data` (bot.py:129-136). -/
def build_track_data (e : Entry) : TrackData :=
  { id := e.id
    title := e.title
    duration := format_duration e.duration
    thumb := "https://i.ytimg.com/vi/" ++ e.id ++ "/default.jpg" }

/-! ## The JSON payload (`json.dumps(..., ensure_ascii=False)`)

`calc_max_tracks_for_url` measures the length of
`base_url ?data= base64(json.dumps({'tracks': tracks_data}, ensure_ascii=False).encode())`.
We reproduce the exact string `json.dumps` produces: keys in insertion order,
default separators `', '` and `': '`, and the `ensure_ascii=False` escaping
rule (only backslash, double quote and control characters below 0x20 are
escaped; everything else is emitted verbatim). -/

/-- One lowercase hex digit, as produced by Python's `'\\u%04x'` escapes. -/
def hexDigitChar (n : Nat) : Char :=
  if n < 10 then Char.ofNat (48 + n) else Char.ofNat (87 + n)

/-- Escaping of a single character inside a JSON string literal, following
Python's `json` encoder with `ensure_ascii=False`. -/
def jsonEscapeChar (c : Char) : String :=
  if c = '\\' then "\\\\"
  else if c = '"' then "\\\""
  else if c = Char.ofNat 8 then "\\b"
  else if c = Char.ofNat 12 then "\\f"
  else if c = '\n' then "\\n"
  else if c = Char.ofNat 13 then "\\r"
  else if c = '\t' then "\\t"
  else if c.toNat < 32 then
    "\\u00" ++ String.mk [hexDigitChar (c.toNat / 16), hexDigitChar (c.toNat % 16)]
  else String.singleton c

/-- A JSON string literal for `s`. -/
def jsonStr (s : String) : String :=
  "\"" ++ String.join (s.data.map jsonEscapeChar) ++ "\""

/-- The JSON object `json.dumps` produces for one track dict
(`{"id": ..., "title": ..., "duration": ..., "thumb": ...}`). -/
def trackJson (t : TrackData) : String :=
  "\x7b\"id\": " ++ jsonStr t.id ++ ", \"title\": " ++ jsonStr t.title ++
    ", \"duration\": " ++ jsonStr t.duration ++ ", \"thumb\": " ++ jsonStr t.thumb ++ "\x7d"

/-- The comma-separated JSON rendering of a list of tracks (the body of the
JSON array, items joined by `', '`). -/
def tracksJsonList : List TrackData → String
  | [] => ""
  | t :: ts =>
    match ts with
    | [] => trackJson t
    | _ :: _ => trackJson t ++ ", " ++ tracksJsonList ts

/-- The full payload `json.dumps({'tracks': tracks_data}, ensure_ascii=False)`. -/
def dataJson (ts : List TrackData) : String :=
  "\x7b\"tracks\": [" ++ tracksJsonList ts ++ "]\x7d"

/-- Embeds `len(s.encode())`: the UTF-8 byte length of a string, as the sum of the
UTF-8 sizes of its characters. -/
def encodeLen (s : String) : Nat :=
  (s.data.map Char.utf8Size).sum

/-- The length in characters of `base64.urlsafe_b64encode(b)` for an input of
`nbytes` bytes: four output characters (padding included) per three input
bytes, rounded up. -/
def b64EncodedLen (nbytes : Nat) : Nat :=
  4 * ((nbytes + 2) / 3)

/-- Embeds the inner helper `url_len` of `calc_max_tracks_for_url`
(bot.py:141-145): the length of `f'{base_url}?data={data_b64}'` where
`data_b64` base64-encodes the JSON payload for the first `count` entries.
Python's `len` counts code points, so the result is the code-point length of
`base_url`, plus 6 for `'?data='`, plus the base64 output length. -/
def url_len (entries : List Entry) (base_url : String) (count : Nat) : Nat :=
  base_url.length + 6 +
    b64EncodedLen (encodeLen (dataJson ((entries.take count).map build_track_data)))

/-- The `while left <= right` binary-search loop of `calc_max_tracks_for_url`
(bot.py:147-158), with the loop state (`left`, `right`, `result`) made
explicit.  `left` starts at 1 and only ever grows, which the carried
hypothesis records (it makes the loop's termination measure well-founded over
`Nat`). -/
def calcLoop (ul : Nat → Nat) (max_url_len left right result : Nat)
    (hl : 1 ≤ left) : Nat :=
  if h : left ≤ right then
    if ul ((left + right) / 2) ≤ max_url_len then
      calcLoop ul max_url_len ((left + right) / 2 + 1) right ((left + right) / 2)
        (by omega)
    else
      calcLoop ul max_url_len left ((left + right) / 2 - 1) result hl
  else result
termination_by right + 1 - left
decreasing_by all_goals omega

/-- Embeds `calc_max_tracks_for_url` (bot.py:139-158). -/
def calc_max_tracks_for_url (entries : List Entry) (base_url : String)
    (max_url_len : Nat := 2000) : Nat :=
  calcLoop (url_len entries base_url) max_url_len 1 entries.length 0 (by omega)

/-! ### Lemmas about the encoded-payload length -/

theorem encodeLen_append (a b : String) :
    encodeLen (a ++ b) = encodeLen a + encodeLen b := by
  simp [encodeLen, String.data_append]

theorem tracksJsonList_cons_cons (a b : TrackData) (ts : List TrackData) :
    tracksJsonList (a :: b :: ts) = trackJson a ++ ", " ++ tracksJsonList (b :: ts) := by
  simp [tracksJsonList]

theorem tracksJsonList_le_snoc (ts : List TrackData) (t : TrackData) :
    encodeLen (tracksJsonList ts) ≤ encodeLen (tracksJsonList (ts ++ [t])) := by
  induction ts with
  | nil =>
    rw [show encodeLen (tracksJsonList []) = 0 from rfl]
    exact Nat.zero_le _
  | cons a ts ih =>
    cases ts with
    | nil =>
      rw [show ([a] ++ [t]) = [a, t] from rfl, tracksJsonList_cons_cons,
        encodeLen_append, encodeLen_append]
      simp only [tracksJsonList]
      omega
    | cons b ts' =>
      rw [show ((a :: b :: ts') ++ [t]) = a :: ((b :: ts') ++ [t]) from rfl]
      rw [show ((b :: ts') ++ [t]) = b :: (ts' ++ [t]) from rfl]
      rw [tracksJsonList_cons_cons, tracksJsonList_cons_cons, encodeLen_append,
        encodeLen_append, encodeLen_append, encodeLen_append]
      rw [show (b :: (ts' ++ [t])) = ((b :: ts') ++ [t]) from rfl]
      omega

/-- Appending one more entry to the encoded page never shrinks its byte
length: the encoding is monotonically non-decreasing in the prefix length. -/
theorem url_len_mono (entries : List Entry) (base_url : String) :
    Monotone (url_len entries base_url) := by
  have hjson : Monotone
      (fun c => encodeLen (dataJson ((entries.take c).map build_track_data))) := by
    apply monotone_nat_of_le_succ
    intro n
    rw [List.take_succ, List.map_append]
    cases hn : entries[n]? with
    | none => simp
    | some e =>
      simp only [hn, Option.toList_some, List.map_cons, List.map_nil]
      simp only [dataJson, encodeLen_append]
      have := tracksJsonList_le_snoc ((entries.take n).map build_track_data)
        (build_track_data e)
      omega
  intro c1 c2 h
  have h1 : encodeLen (dataJson ((entries.take c1).map build_track_data))
      ≤ encodeLen (dataJson ((entries.take c2).map build_track_data)) := hjson h
  have h2 : (encodeLen (dataJson ((entries.take c1).map build_track_data)) + 2) / 3
      ≤ (encodeLen (dataJson ((entries.take c2).map build_track_data)) + 2) / 3 :=
    Nat.div_le_div_right (by omega)
  simp only [url_len, b64EncodedLen]
  omega

/-! ### The binary-search loop invariant -/

/-- Loop invariant of the `while left <= right` search in
`calc_max_tracks_for_url`, proved by induction on an upper bound (`fuel`) for
the interval width.  Under a monotone length function, from a state where
`result = left - 1`, every index left of `left` fits and every index right of
`right` does not, the loop returns the largest fitting index in `[1, N]`
(and a value that itself fits whenever it is nonzero). -/
theorem calcLoop_spec_aux (ul : Nat → Nat) (mx N : Nat)
    (hmono : ∀ a b, a ≤ b → ul a ≤ ul b) :
    ∀ fuel left right result (hl : 1 ≤ left),
      right + 1 - left ≤ fuel →
      right ≤ N → left ≤ right + 1 → result + 1 = left →
      (∀ n, 1 ≤ n → n < left → ul n ≤ mx) →
      (∀ n, right < n → n ≤ N → mx < ul n) →
      calcLoop ul mx left right result hl ≤ N ∧
      (1 ≤ calcLoop ul mx left right result hl →
        ul (calcLoop ul mx left right result hl) ≤ mx) ∧
      (∀ n, 1 ≤ n → n ≤ N → ul n ≤ mx → n ≤ calcLoop ul mx left right result hl) := by
  intro fuel
  induction fuel with
  | zero =>
    intro left right result hl hf hN hlr hres hlow hhigh
    have hx : ¬ left ≤ right := by omega
    rw [calcLoop]
    simp only [hx, dite_false]
    refine ⟨by omega, fun h1 => hlow result h1 (by omega), fun n hn1 hnN hfit => ?_⟩
    by_contra hcon
    exact absurd hfit (not_le.mpr (hhigh n (by omega) hnN))
  | succ fuel ih =>
    intro left right result hl hf hN hlr hres hlow hhigh
    rw [calcLoop]
    by_cases hx : left ≤ right
    · simp only [hx, dite_true]
      by_cases hfit : ul ((left + right) / 2) ≤ mx
      · simp only [hfit, if_true]
        apply ih ((left + right) / 2 + 1) right ((left + right) / 2) (by omega)
          (by omega) hN (by omega) (by omega)
        · intro n hn1 hn2
          exact le_trans (hmono n ((left + right) / 2) (by omega)) hfit
        · exact hhigh
      · simp only [hfit, if_false]
        apply ih left ((left + right) / 2 - 1) result hl (by omega) (by omega)
          (by omega) hres hlow
        intro n hn1 hn2
        exact lt_of_lt_of_le (not_le.mp hfit) (hmono ((left + right) / 2) n (by omega))
    · simp only [hx, dite_false]
      refine ⟨by omega, fun h1 => hlow result h1 (by omega), fun n hn1 hnN hfit => ?_⟩
      by_contra hcon
      exact absurd hfit (not_le.mpr (hhigh n (by omega) hnN))

/-- Characterisation of `calc_max_tracks_for_url`: the result is at most the
number of entries, fits the limit whenever nonzero, and dominates every
fitting prefix length. -/
theorem calc_max_tracks_spec (entries : List Entry) (base_url : String) (mx : Nat) :
    calc_max_tracks_for_url entries base_url mx ≤ entries.length ∧
    (1 ≤ calc_max_tracks_for_url entries base_url mx →
      url_len entries base_url (calc_max_tracks_for_url entries base_url mx) ≤ mx) ∧
    (∀ n, 1 ≤ n → n ≤ entries.length → url_len entries base_url n ≤ mx →
      n ≤ calc_max_tracks_for_url entries base_url mx) := by
  apply calcLoop_spec_aux (url_len entries base_url) mx entries.length
    (fun a b h => url_len_mono entries base_url h) (entries.length + 1) 1
    entries.length 0 (by omega) (by omega) (by omega) (by omega) (by omega)
    (by omega)
  intro n hn1 hn2
  omega

/-- Range facts about the loop that hold for an arbitrary (not necessarily
monotone) length function: the result is `0` or a fitting index in
`[1, right₀]`. -/
theorem calcLoop_range_aux (ul : Nat → Nat) (mx N : Nat) :
    ∀ fuel left right result (hl : 1 ≤ left),
      right + 1 - left ≤ fuel →
      right ≤ N →
      (result = 0 ∨ (1 ≤ result ∧ result ≤ N ∧ ul result ≤ mx)) →
      (calcLoop ul mx left right result hl = 0 ∨
        (1 ≤ calcLoop ul mx left right result hl ∧
          calcLoop ul mx left right result hl ≤ N ∧
          ul (calcLoop ul mx left right result hl) ≤ mx)) := by
  intro fuel
  induction fuel with
  | zero =>
    intro left right result hl hf hN hres
    have hx : ¬ left ≤ right := by omega
    rw [calcLoop]
    simp only [hx, dite_false]
    exact hres
  | succ fuel ih =>
    intro left right result hl hf hN hres
    rw [calcLoop]
    by_cases hx : left ≤ right
    · simp only [hx, dite_true]
      by_cases hfit : ul ((left + right) / 2) ≤ mx
      · simp only [hfit, if_true]
        exact ih ((left + right) / 2 + 1) right ((left + right) / 2) (by omega)
          (by omega) hN (Or.inr ⟨by omega, by omega, hfit⟩)
      · simp only [hfit, if_false]
        exact ih left ((left + right) / 2 - 1) result hl (by omega) (by omega) hres
    · simp only [hx, dite_false]
      exact hres

/-! ## The download progress hook (`downloader.py:191-206`)

`download_audio` installs a `progress_hook` closure over the mutable
`last_percent` (initially `-1`).  On a `downloading` event it resolves a total
byte count (`total_bytes`, else `total_bytes_estimate`, else `0`); when that
total is positive it computes `percent = int(downloaded * 100 / total)` and
invokes the user callback only when `percent >= last_percent + 10`, updating
`last_percent` to the reported value.  We model one `downloading` event as a
`ProgressUpdate` (with `total = 0` when the total is unknown) and the run of
the hook as a left fold over the event sequence, collecting the reported
percents.  `int(...)` of a non-negative quotient is modelled as exact integer
floor division. -/

structure ProgressUpdate where
  total : Nat
  downloaded : Nat
deriving DecidableEq, Repr

/-- The percent `int(downloaded * 100 / total)` for a known (positive) total. -/
def progressPercent (u : ProgressUpdate) : Int :=
  Int.ofNat (u.downloaded * 100 / u.total)

/-- One step of `progress_hook` on a `downloading` event: the state is
`(last_percent, reported-so-far)`. -/
def hookStep (st : Int × List Int) (u : ProgressUpdate) : Int × List Int :=
  if 0 < u.total then
    if st.1 + 10 ≤ progressPercent u then
      (progressPercent u, st.2 ++ [progressPercent u])
    else st
  else st

/-- The sequence of percents passed to `progress_callback` over a whole
download, starting from `last_percent = -1`. -/
def reportedCalls (updates : List ProgressUpdate) : List Int :=
  (updates.foldl hookStep ((-1 : Int), [])).2

/-- The spec's throttling rule as a recursive filter over raw percents: a
percent is reported exactly when it is at least 10 above the last reported
value. -/
def throttleRule (last : Int) : List Int → List Int
  | [] => []
  | p :: ps => if last + 10 ≤ p then p :: throttleRule p ps else throttleRule last ps

/-- The raw percents of the updates whose total is known. -/
def knownPercents (updates : List ProgressUpdate) : List Int :=
  (updates.filter (fun u => 0 < u.total)).map progressPercent

theorem foldl_hookStep_eq (updates : List ProgressUpdate) :
    ∀ last acc, (updates.foldl hookStep (last, acc)).2
      = acc ++ throttleRule last (knownPercents updates) := by
  induction updates with
  | nil => intro last acc; simp [knownPercents, throttleRule]
  | cons u us ih =>
    intro last acc
    by_cases ht : 0 < u.total
    · by_cases hp : last + 10 ≤ progressPercent u
      · have hstep : hookStep (last, acc) u
            = (progressPercent u, acc ++ [progressPercent u]) := by
          simp [hookStep, ht, hp]
        have hk : knownPercents (u :: us) = progressPercent u :: knownPercents us := by
          simp [knownPercents, ht]
        rw [List.foldl_cons, hstep, ih, hk]
        simp [throttleRule, hp]
      · have hstep : hookStep (last, acc) u = (last, acc) := by
          simp [hookStep, ht, hp]
        have hk : knownPercents (u :: us) = progressPercent u :: knownPercents us := by
          simp [knownPercents, ht]
        rw [List.foldl_cons, hstep, ih, hk]
        simp [throttleRule, hp]
    · have hstep : hookStep (last, acc) u = (last, acc) := by
        simp [hookStep, ht]
      have hk : knownPercents (u :: us) = knownPercents us := by
        simp [knownPercents, ht]
      rw [List.foldl_cons, hstep, ih, hk]

/-- The six `downloading` events of the spec's worked example: raw
percentages 3, 7, 11, 15, 22, 31 against a known total. -/
def demoUpdates : List ProgressUpdate :=
  [⟨100, 3⟩, ⟨100, 7⟩, ⟨100, 11⟩, ⟨100, 15⟩, ⟨100, 22⟩, ⟨100, 31⟩]

/-! ## The title parser (`bot.py:469-475` and `bot.py:373-379`)

`if ' - ' in raw_title: parts = raw_title.split(' - ', 1); performer =
parts[0].strip(); title = parts[1].strip(); else: performer = uploader or '';
title = raw_title`.  We embed the split-at-first-occurrence on character
lists, and Python's `str.strip()` as dropping whitespace from both ends. -/

/-- The literal separator `' - '`. -/
def titleSep : String := " - "

/-- Whether `p` is a leading subsequence of `s` (character-by-character). -/
def startsWithChars : List Char → List Char → Bool
  | [], _ => true
  | _ :: _, [] => false
  | p :: ps, c :: cs => p == c && startsWithChars ps cs

/-- Split `s` at the first (leftmost) occurrence of `sep`, like Python's
`s.split(sep, 1)` when `sep in s`; `none` when `sep` does not occur. -/
def splitFirst (sep : List Char) : List Char → Option (List Char × List Char)
  | [] => none
  | c :: cs =>
    if startsWithChars sep (c :: cs) then
      some ([], (c :: cs).drop sep.length)
    else
      match splitFirst sep cs with
      | some (l, r) => some (c :: l, r)
      | none => none

/-- Python's `str.strip()` (for the ASCII whitespace that occurs here):
drop whitespace from both ends. -/
def stripChars (s : List Char) : List Char :=
  ((s.dropWhile Char.isWhitespace).reverse.dropWhile Char.isWhitespace).reverse

/-- Embeds the performer/title heuristic of `handle_youtube_url`
(bot.py:469-475) and `handle_web_app_data` (bot.py:373-379).  `uploader` is
`none` when the extractor reported no uploader (Python `None`); `uploader or
''` maps both `None` and `''` to `''`, which `Option.getD ""` reproduces. -/
def parse_title (raw_title : String) (uploader : Option String) : String × String :=
  match splitFirst titleSep.data raw_title.data with
  | some (l, r) => (String.mk (stripChars l), String.mk (stripChars r))
  | none => (uploader.getD "", raw_title)

theorem startsWithChars_iff (p : List Char) :
    ∀ s, startsWithChars p s = true ↔ ∃ t, s = p ++ t := by
  induction p with
  | nil => intro s; simp [startsWithChars]
  | cons a ps ih =>
    intro s
    cases s with
    | nil =>
      simp only [startsWithChars, List.cons_append]
      constructor
      · intro h; exact absurd h (by simp)
      · rintro ⟨t, ht⟩; exact absurd ht (by simp)
    | cons c cs =>
      simp only [startsWithChars, Bool.and_eq_true, beq_iff_eq, ih]
      constructor
      · rintro ⟨rfl, t, rfl⟩; exact ⟨t, rfl⟩
      · rintro ⟨t, ht⟩
        rw [List.cons_append] at ht
        injection ht with h1 h2
        exact ⟨h1.symm, t, h2⟩

theorem splitFirst_sound (sep : List Char) :
    ∀ s l r, splitFirst sep s = some (l, r) → s = l ++ sep ++ r := by
  intro s
  induction s with
  | nil => intro l r h; simp [splitFirst] at h
  | cons c cs ih =>
    intro l r h
    rw [splitFirst] at h
    by_cases hs : startsWithChars sep (c :: cs) = true
    · rw [if_pos hs] at h
      obtain ⟨t, ht⟩ := (startsWithChars_iff sep (c :: cs)).mp hs
      injection h with h
      injection h with h1 h2
      subst h1
      rw [ht, List.drop_left] at h2
      subst h2
      simpa using ht
    · rw [if_neg hs] at h
      cases hrec : splitFirst sep cs with
      | none => rw [hrec] at h; exact absurd h (by simp)
      | some p =>
        obtain ⟨l', r'⟩ := p
        rw [hrec] at h
        injection h with h
        injection h with h1 h2
        rw [← h1, ← h2]
        have := ih l' r' hrec
        simp [this]

theorem splitFirst_min (sep : List Char) :
    ∀ s l r, splitFirst sep s = some (l, r) →
      ∀ l2 r2, s = l2 ++ sep ++ r2 → l.length ≤ l2.length := by
  intro s
  induction s with
  | nil => intro l r h; simp [splitFirst] at h
  | cons c cs ih =>
    intro l r h l2 r2 hdec
    rw [splitFirst] at h
    by_cases hs : startsWithChars sep (c :: cs) = true
    · rw [if_pos hs] at h
      injection h with h
      injection h with h1 h2
      subst h1
      simp
    · rw [if_neg hs] at h
      cases hrec : splitFirst sep cs with
      | none => rw [hrec] at h; exact absurd h (by simp)
      | some p =>
        obtain ⟨l', r'⟩ := p
        rw [hrec] at h
        injection h with h
        injection h with h1 h2
        rw [← h1]
        cases l2 with
        | nil =>
          exfalso
          apply hs
          apply (startsWithChars_iff sep (c :: cs)).mpr
          exact ⟨r2, by simpa using hdec⟩
        | cons c2 l2' =>
          rw [List.cons_append, List.cons_append] at hdec
          injection hdec with h1 h2
          simpa using ih l' r' hrec l2' r2 (by simpa using h2)

theorem splitFirst_complete (sep : List Char) (hsep : sep ≠ []) :
    ∀ l s r, s = l ++ sep ++ r → splitFirst sep s ≠ none := by
  intro l
  induction l with
  | nil =>
    intro s r hdec
    cases hs : sep with
    | nil => exact absurd hs hsep
    | cons a sep' =>
      subst hs
      rw [List.nil_append, List.cons_append] at hdec
      subst hdec
      rw [splitFirst, if_pos ((startsWithChars_iff _ _).mpr ⟨r, by simp⟩)]
      simp
  | cons c l' ih =>
    intro s r hdec
    rw [List.cons_append, List.cons_append] at hdec
    subst hdec
    rw [splitFirst]
    by_cases hs : startsWithChars sep (c :: (l' ++ sep ++ r)) = true
    · rw [if_pos hs]; simp
    · rw [if_neg hs]
      cases hrec : splitFirst sep (l' ++ sep ++ r) with
      | none => exact absurd hrec (ih (l' ++ sep ++ r) r (by simp))
      | some p => obtain ⟨a, b⟩ := p; simp

/-! ## The lyrics resolver (`downloader.py:21-66`)

`fetch_lyrics` queries lrclib.net inside a `try` whose handlers return `None`
for an HTTP 404 (`Lyrics не найдены`, a normal outcome), any other
`HTTPError`, and any other exception.  On a successful response it takes
`data.get('syncedLyrics') or data.get('plainLyrics')` and returns it when
truthy, else `None`.  The transport is abstracted into a `LyricsResponse`
value: the body's two optional fields on success (absent or `null` fields are
`none`), or the failure that the `except` clauses catch. -/

inductive LyricsResponse where
  | success (syncedLyrics plainLyrics : Option String)
  | httpError (code : Nat)
  | otherFailure
deriving DecidableEq, Repr

/-- Python's `a or b` on optional strings: `None` and `''` are falsy. -/
def pyOrStr (a b : Option String) : Option String :=
  match a with
  | some s => if s = "" then b else some s
  | none => b

/-- Embeds the outcome of `fetch_lyrics` (downloader.py:21-66) as a function
of the abstracted response. -/
def fetch_lyrics (resp : LyricsResponse) : Option String :=
  match resp with
  | .success synced plain =>
    match pyOrStr synced plain with
    | some s => if s = "" then none else some s
    | none => none
  | .httpError _ => none
  | .otherFailure => none

/-! ## The cover-art normalizer (`downloader.py:133-165`)

Inside `embed_metadata` the downloaded thumbnail is decoded with PIL, an
alpha/palette image is converted to RGB, a non-square image is centre-cropped
to its largest square, a square wider than 600 is resized to 600×600, and the
result is saved as JPEG at quality 90.  We model the image by its PIL mode
and pixel dimensions, and the crop/resize arithmetic exactly (`//` on
non-negative ints is `Nat` division). -/

inductive PILMode where
  | RGB | RGBA | P | LA | L
deriving DecidableEq, Repr

/-- Modes carrying transparency or an indexed palette. -/
def modeHasAlphaOrPalette (m : PILMode) : Bool :=
  match m with
  | .RGBA => true
  | .P => true
  | .LA => true
  | _ => false

structure CoverImage where
  mode : PILMode
  width : Nat
  height : Nat
deriving DecidableEq, Repr

/-- The metadata the `img.save(output, format='JPEG', quality=90)` call
receives: the final image plus the hard-coded encoder parameters. -/
structure SavedCover where
  mode : PILMode
  width : Nat
  height : Nat
  format : String
  quality : Nat
deriving DecidableEq, Repr

/-- The centre-crop box `(left, top, left+size, top+size)` computed at
downloader.py:146-150 for a non-square image. -/
def cropBox (width height : Nat) : Nat × Nat × Nat × Nat :=
  let size := min width height
  ((width - size) / 2, (height - size) / 2,
    (width - size) / 2 + size, (height - size) / 2 + size)

/-- Embeds `if img.mode in ('RGBA', 'P', 'LA'): img = img.convert('RGB')`
(downloader.py:142-143). -/
def flattenMode (img : CoverImage) : CoverImage :=
  if modeHasAlphaOrPalette img.mode then { img with mode := PILMode.RGB } else img

/-- Embeds `if width != height: img = img.crop(...)` with the centred square box
(downloader.py:145-151): the cropped image is `size × size`,
`size = min(width, height)`. -/
def centerCropSquare (img : CoverImage) : CoverImage :=
  if img.width ≠ img.height then
    { img with width := min img.width img.height,
               height := min img.width img.height }
  else img

/-- Embeds `if img.width > 600: img = img.resize((600, 600), Image.LANCZOS)`
(downloader.py:154-155). -/
def shrinkTo600 (img : CoverImage) : CoverImage :=
  if 600 < img.width then { img with width := 600, height := 600 } else img

/-- Embeds the image pipeline of `embed_metadata` (downloader.py:139-159):
mode flattening, centre crop, conditional 600×600 downscale, then
`img.save(output, format='JPEG', quality=90)`. -/
def normalize_cover (img : CoverImage) : SavedCover :=
  let img3 := shrinkTo600 (centerCropSquare (flattenMode img))
  { mode := img3.mode, width := img3.width, height := img3.height,
    format := "JPEG", quality := 90 }

theorem flattenMode_mode (img : CoverImage) :
    (flattenMode img).mode
      = (if modeHasAlphaOrPalette img.mode then PILMode.RGB else img.mode) := by
  rw [flattenMode]; split_ifs <;> rfl

theorem centerCropSquare_mode (img : CoverImage) :
    (centerCropSquare img).mode = img.mode := by
  rw [centerCropSquare]; split_ifs <;> rfl

theorem shrinkTo600_mode (img : CoverImage) :
    (shrinkTo600 img).mode = img.mode := by
  rw [shrinkTo600]; split_ifs <;> rfl

theorem centerCropSquare_dims (img : CoverImage) :
    (centerCropSquare img).width = min img.width img.height ∧
    (centerCropSquare img).height = min img.width img.height := by
  rw [centerCropSquare]
  split_ifs with h
  · exact ⟨rfl, rfl⟩
  · simp only [not_ne_iff] at h
    simp [h]

theorem shrinkTo600_dims (img : CoverImage) (hsq : img.width = img.height) :
    (shrinkTo600 img).width = (if 600 < img.width then 600 else img.width) ∧
    (shrinkTo600 img).height = (shrinkTo600 img).width := by
  rw [shrinkTo600]
  split_ifs with h
  · exact ⟨rfl, rfl⟩
  · exact ⟨rfl, hsq.symm⟩

/-! ## The selection session cache (`bot.py:31`, `bot.py:238-245`, `bot.py:417`)

`playlist_cache` is a per-user dict.  `handle_playlist_url` overwrites the
user's entry with a fresh session dict holding both the id-keyed dict
`{e['id']: e for e in entries}` and the ordered list.  `handle_web_app_data`
reads the session, and pops it after the batch loop.  A Python dict is
modelled as a function to `Option`; the comprehension builds it by repeated
insertion, so a later entry with a duplicate id overwrites an earlier one. -/

structure Session where
  entriesByKey : String → Option Entry
  entries_list : List Entry
  title : String
  total : Nat
  page_size : Nat
  url : String

/-- The dict comprehension `{e['id']: e for e in entries}` (bot.py:239). -/
def buildEntriesDict (entries : List Entry) : String → Option Entry :=
  entries.foldl (fun d e => fun k => if k = e.id then some e else d k) (fun _ => none)

/-- The session dict stored at bot.py:238-245. -/
def mkSession (entries : List Entry) (playlistTitle : String) (declaredCount : Nat)
    (pageSize : Nat) (url : String) : Session :=
  { entriesByKey := buildEntriesDict entries
    entries_list := entries
    title := playlistTitle
    total := declaredCount
    page_size := pageSize
    url := url }

/-- The empty `playlist_cache` (bot.py:31). -/
def emptyCache : Nat → Option Session := fun _ => none

/-- The write `playlist_cache[user_id] = session` (bot.py:238): creation or overwrite. -/
def cachePut (c : Nat → Option Session) (u : Nat) (s : Session) :
    Nat → Option Session :=
  fun v => if v = u then some s else c v

/-- The deletion `playlist_cache.pop(user_id, None)` (bot.py:417). -/
def cachePop (c : Nat → Option Session) (u : Nat) : Nat → Option Session :=
  fun v => if v = u then none else c v

/-- The C9 invariant on one session: a key is present in the id-keyed dict
exactly when it occurs among the ids of the ordered entry list. -/
def sessionIdsInv (s : Session) : Prop :=
  ∀ k, (s.entriesByKey k).isSome = true ↔ k ∈ s.entries_list.map Entry.id

/-- The C9 invariant on the whole cache. -/
def cacheIdsInv (c : Nat → Option Session) : Prop :=
  ∀ u s, c u = some s → sessionIdsInv s

theorem buildEntriesDict_isSome (entries : List Entry) (k : String) :
    (buildEntriesDict entries k).isSome = true ↔ k ∈ entries.map Entry.id := by
  suffices h : ∀ (es : List Entry) (d : String → Option Entry),
      ((es.foldl (fun d e => fun k => if k = e.id then some e else d k) d) k).isSome = true
        ↔ (d k).isSome = true ∨ k ∈ es.map Entry.id by
    have := h entries (fun _ => none)
    simpa [buildEntriesDict] using this
  intro es
  induction es with
  | nil => intro d; simp
  | cons e es ih =>
    intro d
    rw [List.foldl_cons, ih]
    by_cases hk : k = e.id <;> simp [hk]

/-! ## The batch delivery loop (`bot.py:310-423`)

`handle_web_app_data` parses the Mini App selection, resolves the chosen ids
against the cached session, then runs a `for` loop in which each track is
processed inside its own `try`: status edit, `get_video_info`,
`download_audio`, title parsing, `embed_metadata`, a size check that deletes
and skips oversized files, `send_audio` and deletion on success; any
exception is caught, reported per item, and the loop continues.  After the
loop a final summary `Готово! Скачано треков: {len(tracks_to_download)}` is
sent and the cache entry is popped.

The external world of one iteration is abstracted into an `ItemWorld`: each
fallible call is an `Except` whose `error` carries the exception text.  The
observable actions become a trace of `BotEvent`s; progress edits inside
`download_audio` are part of the already-modelled progress hook and are
omitted here. -/

/-- The dict returned by `get_video_info` (downloader.py:69-98). -/
structure VideoInfo where
  title : String
  duration : Nat
  thumbnail : String
  uploader : Option String
deriving DecidableEq, Repr

/-- The outcomes of the external calls made while processing one track. -/
structure ItemWorld where
  info : Except String VideoInfo
  download : Except String String
  embed : Except String Unit
  sizeBytes : Nat
  send : Except String Unit

/-- Observable per-batch actions.  Message texts are carried structurally
(the transport layer renders them to the Russian strings of `bot.py`). -/
inductive BotEvent where
  | editStatus (i total : Nat) (title : String)
  | itemError (title reason : String)
  | sizeSkipNotice (title : String)
  | sendAudio (title performer : String)
  | deleteFile (path : String)
  | finalSummary (count : Nat)
deriving DecidableEq, Repr

/-- One iteration of the batch `for` loop (bot.py:344-408), 1-indexed
position `i` of `total`.  The size check compares
`file_size_mb = size / (1024*1024)` against `MAX_FILE_SIZE_MB`, modelled in
exact byte arithmetic. -/
def processItem (i total : Nat) (trackTitle : String) (w : ItemWorld)
    (maxMB : Nat) : List BotEvent :=
  match w.info with
  | .error e => [.editStatus i total trackTitle, .itemError trackTitle e]
  | .ok info =>
    match w.download with
    | .error e => [.editStatus i total trackTitle, .itemError trackTitle e]
    | .ok path =>
      match w.embed with
      | .error e => [.editStatus i total trackTitle, .itemError trackTitle e]
      | .ok _ =>
        if maxMB * 1024 * 1024 < w.sizeBytes then
          [.editStatus i total trackTitle, .deleteFile path,
            .sizeSkipNotice trackTitle]
        else
          match w.send with
          | .error e => [.editStatus i total trackTitle, .itemError trackTitle e]
          | .ok _ =>
            [.editStatus i total trackTitle,
              .sendAudio (parse_title info.title info.uploader).2
                (parse_title info.title info.uploader).1,
              .deleteFile path]

/-- The whole `for i, track in enumerate(tracks_to_download, 1)` loop. -/
def batchLoop (maxMB total : Nat) : Nat → List (String × ItemWorld) → List BotEvent
  | _, [] => []
  | i, t :: ts => processItem i total t.1 t.2 maxMB ++ batchLoop maxMB total (i + 1) ts

/-- The resolution `[entries[vid] for vid in selected_ids if vid in entries]` (bot.py:331),
paired with each track's external outcomes. -/
def selectedTracks (sess : Session) (selected : List String)
    (world : String → ItemWorld) : List (String × ItemWorld) :=
  selected.filterMap (fun vid => (sess.entriesByKey vid).map (fun e => (e.title, world vid)))

/-- Embeds `handle_web_app_data` (bot.py:310-423) on its main path: empty
selection, missing session, and empty resolved-track list return early with
the cache untouched; otherwise the batch loop runs, the final summary
reports `len(tracks_to_download)`, and the cache entry is popped. -/
def handle_web_app_data (cache : Nat → Option Session) (user : Nat)
    (selected : List String) (world : String → ItemWorld) (maxMB : Nat) :
    List BotEvent × (Nat → Option Session) :=
  if selected = [] then ([], cache)
  else
    match cache user with
    | none => ([], cache)
    | some sess =>
      let tracks := selectedTracks sess selected world
      if tracks.isEmpty then ([], cache)
      else
        (batchLoop maxMB tracks.length 1 tracks ++ [.finalSummary tracks.length],
          cachePop cache user)

/-- The number of successful deliveries recorded in a trace. -/
def deliveredCount (evs : List BotEvent) : Nat :=
  (evs.filter (fun e => match e with | .sendAudio _ _ => true | _ => false)).length

/-! ## Concrete inputs used by the witnesses -/

/-- A two-entry playlist used as a concrete witness input. -/
def demoEntries : List Entry :=
  [⟨"dQw4w9WgXcQ", "Artist - Song", 212⟩, ⟨"abc123xyz00", "Other Track", 61⟩]

/-! ## Claim theorems -/

/-- C1: for every non-empty entry list, base URL and limit,
`calc_max_tracks_for_url` returns the largest `n` with `1 ≤ n ≤ len(entries)`
whose encoded payload fits `max_url_len`, and returns 0 exactly when even
`n = 1` does not fit.  The claim's monotonicity assumption on the encoded
length is not needed: it holds of the actual encoding (`url_len_mono`). -/
theorem calc_max_tracks_returns_largest_fitting (entries : List Entry)
    (base_url : String) (mx : Nat) (hne : entries ≠ []) :
    calc_max_tracks_for_url entries base_url mx ≤ entries.length ∧
    (calc_max_tracks_for_url entries base_url mx = 0 ↔ mx < url_len entries base_url 1) ∧
    (1 ≤ calc_max_tracks_for_url entries base_url mx →
      url_len entries base_url (calc_max_tracks_for_url entries base_url mx) ≤ mx) ∧
    (∀ n, 1 ≤ n → n ≤ entries.length → url_len entries base_url n ≤ mx →
      n ≤ calc_max_tracks_for_url entries base_url mx) := by
  obtain ⟨h1, h2, h3⟩ := calc_max_tracks_spec entries base_url mx
  have hlen : 1 ≤ entries.length := by
    cases entries with
    | nil => exact absurd rfl hne
    | cons a l => simp
  refine ⟨h1, ⟨?_, ?_⟩, h2, h3⟩
  · intro h0
    by_contra hcon
    push_neg at hcon
    have := h3 1 le_rfl hlen hcon
    omega
  · intro hlt
    by_contra h0
    have hr : 1 ≤ calc_max_tracks_for_url entries base_url mx :=
      Nat.one_le_iff_ne_zero.mpr h0
    have hfit := h2 hr
    have hmono := url_len_mono entries base_url hr
    omega

/-- Witness for C1 at a concrete input. -/
theorem calc_max_tracks_returns_largest_fitting_witness :
    calc_max_tracks_for_url demoEntries "https://app.example" 2000 ≤ demoEntries.length ∧
    (calc_max_tracks_for_url demoEntries "https://app.example" 2000 = 0 ↔
      2000 < url_len demoEntries "https://app.example" 1) ∧
    (1 ≤ calc_max_tracks_for_url demoEntries "https://app.example" 2000 →
      url_len demoEntries "https://app.example"
        (calc_max_tracks_for_url demoEntries "https://app.example" 2000) ≤ 2000) ∧
    (∀ n, 1 ≤ n → n ≤ demoEntries.length →
      url_len demoEntries "https://app.example" n ≤ 2000 →
      n ≤ calc_max_tracks_for_url demoEntries "https://app.example" 2000) :=
  calc_max_tracks_returns_largest_fitting demoEntries "https://app.example" 2000
    (by decide)

/-- C8: the page fitter is monotone in the length limit. -/
theorem calc_max_tracks_mono_in_limit (entries : List Entry) (base_url : String)
    (m1 m2 : Nat) (_hne : entries ≠ []) (h12 : m1 ≤ m2) :
    calc_max_tracks_for_url entries base_url m1
      ≤ calc_max_tracks_for_url entries base_url m2 := by
  obtain ⟨h1a, h1b, h1c⟩ := calc_max_tracks_spec entries base_url m1
  obtain ⟨h2a, h2b, h2c⟩ := calc_max_tracks_spec entries base_url m2
  by_cases h0 : calc_max_tracks_for_url entries base_url m1 = 0
  · omega
  · have hr : 1 ≤ calc_max_tracks_for_url entries base_url m1 :=
      Nat.one_le_iff_ne_zero.mpr h0
    exact h2c _ hr h1a (le_trans (h1b hr) h12)

/-- Witness for C8 at a concrete input. -/
theorem calc_max_tracks_mono_in_limit_witness :
    calc_max_tracks_for_url demoEntries "https://app.example" 300
      ≤ calc_max_tracks_for_url demoEntries "https://app.example" 2000 :=
  calc_max_tracks_mono_in_limit demoEntries "https://app.example" 300 2000
    (by decide) (by omega)

/-- C10: for every entry list (empty included) the result is between 0 and
`len(entries)`, a nonzero result always denotes a fitting prefix (no
monotonicity assumption needed), and the empty list yields 0. -/
theorem calc_max_tracks_range (entries : List Entry) (base_url : String) (mx : Nat) :
    calc_max_tracks_for_url entries base_url mx ≤ entries.length ∧
    (0 < calc_max_tracks_for_url entries base_url mx →
      url_len entries base_url (calc_max_tracks_for_url entries base_url mx) ≤ mx) ∧
    (entries = [] → calc_max_tracks_for_url entries base_url mx = 0) := by
  have h := calcLoop_range_aux (url_len entries base_url) mx entries.length
    (entries.length + 1) 1 entries.length 0 (by omega) (by omega) (by omega)
    (Or.inl rfl)
  unfold calc_max_tracks_for_url
  rcases h with h0 | ⟨ha, hb, hc⟩
  · rw [h0]
    exact ⟨by omega, by omega, fun _ => rfl⟩
  · refine ⟨hb, fun _ => hc, fun hemp => ?_⟩
    subst hemp
    simp only [List.length_nil] at hb ⊢
    omega

/-- Witness for C10 at a concrete input (the empty list). -/
theorem calc_max_tracks_range_witness :
    calc_max_tracks_for_url [] "https://app.example" 2000 ≤ ([] : List Entry).length ∧
    (0 < calc_max_tracks_for_url [] "https://app.example" 2000 →
      url_len [] "https://app.example"
        (calc_max_tracks_for_url [] "https://app.example" 2000) ≤ 2000) ∧
    (([] : List Entry) = [] → calc_max_tracks_for_url [] "https://app.example" 2000 = 0) :=
  calc_max_tracks_range [] "https://app.example" 2000

/-- C2 counterexample: the spec's worked example is wrong.  On raw
percentages `[3, 7, 11, 15, 22, 31]` the hook does NOT report `[11, 22, 31]`:
after reporting 22 the next report requires a percent of at least 32, so 31
is suppressed and the reported calls are `[11, 22]`. -/
theorem progress_example_counterexample :
    reportedCalls demoUpdates ≠ [11, 22, 31] ∧ reportedCalls demoUpdates = [11, 22] := by
  constructor <;> decide

/-- C2 (amended): the callback fires exactly on the updates whose percent is
at least 10 above the last reported percent, starting from baseline -1 (the
`throttleRule` filter over the known-total percents); when the total size is
unknown no callbacks fire; and the raw-percent sequence `[3,7,11,15,22,31]`
yields reported calls exactly `[11, 22]`. -/
theorem progress_hook_throttle :
    (∀ updates, reportedCalls updates = throttleRule (-1) (knownPercents updates)) ∧
    (∀ updates, (∀ u ∈ updates, u.total = 0) → reportedCalls updates = []) ∧
    reportedCalls demoUpdates = [11, 22] := by
  refine ⟨?_, ?_, by decide⟩
  · intro updates
    simpa using foldl_hookStep_eq updates (-1) []
  · intro updates h
    have hk : knownPercents updates = [] := by
      rw [knownPercents, List.map_eq_nil_iff, List.filter_eq_nil_iff]
      intro u hu
      simp [h u hu]
    have := foldl_hookStep_eq updates (-1) []
    rw [reportedCalls, this, hk]
    rfl

/-- Witness for C2 (amended) at a concrete input: a download whose total
size is unknown reports nothing. -/
theorem progress_hook_throttle_witness :
    reportedCalls [⟨0, 500⟩, ⟨0, 9000⟩] = [] :=
  progress_hook_throttle.2.1 [⟨0, 500⟩, ⟨0, 9000⟩] (by decide)

/-- C3: title parsing splits on the first occurrence of `' - '` only,
trimming both segments; without a separator the performer falls back to the
uploader (empty when absent) and the title is the raw title unchanged;
`parse("A - B - C", "x") = ("A", "B - C")`.  The "first occurrence" is
characterised as the decomposition with the shortest possible prefix. -/
theorem parse_title_first_separator :
    (∀ (raw : String) (up : Option String) (pre post : List Char),
      raw.data = pre ++ titleSep.data ++ post →
      (∀ pre2 post2 : List Char, raw.data = pre2 ++ titleSep.data ++ post2 →
        pre.length ≤ pre2.length) →
      parse_title raw up = (String.mk (stripChars pre), String.mk (stripChars post))) ∧
    (∀ (raw : String) (up : Option String),
      (∀ pre post : List Char, raw.data ≠ pre ++ titleSep.data ++ post) →
      parse_title raw up = (up.getD "", raw)) ∧
    parse_title "A - B - C" (some "x") = ("A", "B - C") := by
  refine ⟨?_, ?_, by decide⟩
  · intro raw up pre post hdec hmin
    cases hsplit : splitFirst titleSep.data raw.data with
    | none =>
      exact absurd hsplit
        (splitFirst_complete titleSep.data (by decide) pre raw.data post hdec)
    | some p =>
      obtain ⟨l, r⟩ := p
      have hsound := splitFirst_sound titleSep.data raw.data l r hsplit
      have hminl := splitFirst_min titleSep.data raw.data l r hsplit pre post hdec
      have hminp := hmin l r hsound
      have hlen : l.length = pre.length := le_antisymm hminl hminp
      have hpair : l = pre ∧ titleSep.data ++ r = titleSep.data ++ post := by
        apply List.append_inj _ hlen
        rw [← List.append_assoc, ← hsound, hdec, List.append_assoc]
      obtain ⟨hl, hr⟩ := hpair
      have hr' : r = post := List.append_cancel_left hr
      rw [parse_title, hsplit, hl, hr']
  · intro raw up h
    cases hsplit : splitFirst titleSep.data raw.data with
    | some p =>
      obtain ⟨l, r⟩ := p
      exact absurd (splitFirst_sound titleSep.data raw.data l r hsplit) (h l r)
    | none => rw [parse_title, hsplit]

/-- Witness for C3 at a concrete input, discharging the first-occurrence
hypotheses via `splitFirst_min`. -/
theorem parse_title_first_separator_witness :
    parse_title "Artist - Song Title" (some "fallback") = ("Artist", "Song Title") := by
  have h := parse_title_first_separator.1 "Artist - Song Title" (some "fallback")
    "Artist".data "Song Title".data (by decide)
    (fun pre2 post2 hdec => splitFirst_min titleSep.data
      "Artist - Song Title".data "Artist".data "Song Title".data (by decide)
      pre2 post2 hdec)
  exact h.trans (by decide)

/-- C4: no single track's failure aborts the batch.  The loop trace is the
concatenation of independent per-item traces; an item failing at any stage
contributes exactly its status edit plus a per-item error report; every
item's trace begins with its own status edit (so item `i+1` is always
attempted whatever happened to item `i`); an oversized item has its file
deleted and a per-item skip notice sent; and after the loop the user's cache
entry is absent. -/
theorem batch_failure_isolation :
    (∀ maxMB total i0 (tracks : List (String × ItemWorld)),
      batchLoop maxMB total i0 tracks
        = (List.enumFrom i0 tracks).flatMap
            (fun p => processItem p.1 total p.2.1 p.2.2 maxMB)) ∧
    (∀ i total title (w : ItemWorld) maxMB e, w.info = .error e →
      processItem i total title w maxMB
        = [.editStatus i total title, .itemError title e]) ∧
    (∀ i total title (w : ItemWorld) maxMB e info, w.info = .ok info →
      w.download = .error e →
      processItem i total title w maxMB
        = [.editStatus i total title, .itemError title e]) ∧
    (∀ i total title (w : ItemWorld) maxMB e info path, w.info = .ok info →
      w.download = .ok path → w.embed = .error e →
      processItem i total title w maxMB
        = [.editStatus i total title, .itemError title e]) ∧
    (∀ i total title (w : ItemWorld) maxMB e info path, w.info = .ok info →
      w.download = .ok path → w.embed = .ok () →
      ¬ maxMB * 1024 * 1024 < w.sizeBytes → w.send = .error e →
      processItem i total title w maxMB
        = [.editStatus i total title, .itemError title e]) ∧
    (∀ i total title (w : ItemWorld) maxMB,
      ∃ rest, processItem i total title w maxMB
        = BotEvent.editStatus i total title :: rest) ∧
    (∀ i total title (w : ItemWorld) maxMB info path, w.info = .ok info →
      w.download = .ok path → w.embed = .ok () →
      maxMB * 1024 * 1024 < w.sizeBytes →
      processItem i total title w maxMB
        = [.editStatus i total title, .deleteFile path, .sizeSkipNotice title]) ∧
    (∀ cache user selected world maxMB sess, selected ≠ [] →
      cache user = some sess → selectedTracks sess selected world ≠ [] →
      (handle_web_app_data cache user selected world maxMB).2 user = none) := by
  refine ⟨?_, ?_, ?_, ?_, ?_, ?_, ?_, ?_⟩
  · intro maxMB total i0 tracks
    induction tracks generalizing i0 with
    | nil => rfl
    | cons t ts ih =>
      simp only [batchLoop]
      rw [show List.enumFrom i0 (t :: ts) = (i0, t) :: List.enumFrom (i0 + 1) ts
        from rfl]
      rw [List.flatMap_cons, ih]
  · intro i total title w maxMB e h
    rw [processItem, h]
  · intro i total title w maxMB e info h1 h2
    rw [processItem, h1, h2]
  · intro i total title w maxMB e info path h1 h2 h3
    rw [processItem, h1, h2, h3]
  · intro i total title w maxMB e info path h1 h2 h3 h4 h5
    rw [processItem, h1, h2, h3]
    dsimp only
    rw [if_neg h4, h5]
  · intro i total title w maxMB
    cases hinfo : w.info with
    | error e => rw [processItem, hinfo]; exact ⟨_, rfl⟩
    | ok info =>
      cases hdl : w.download with
      | error e => rw [processItem, hinfo, hdl]; exact ⟨_, rfl⟩
      | ok path =>
        cases hemb : w.embed with
        | error e => rw [processItem, hinfo, hdl, hemb]; exact ⟨_, rfl⟩
        | ok u =>
          rw [processItem, hinfo, hdl, hemb]
          dsimp only
          by_cases hs : maxMB * 1024 * 1024 < w.sizeBytes
          · rw [if_pos hs]; exact ⟨_, rfl⟩
          · rw [if_neg hs]
            cases hsend : w.send with
            | error e => exact ⟨_, rfl⟩
            | ok u2 => exact ⟨_, rfl⟩
  · intro i total title w maxMB info path h1 h2 h3 h4
    rw [processItem, h1, h2, h3]
    dsimp only
    rw [if_pos h4]
  · intro cache user selected world maxMB sess hsel hc htr
    rw [handle_web_app_data, if_neg hsel, hc]
    have hie : (selectedTracks sess selected world).isEmpty = false :=
      List.isEmpty_eq_false.mpr htr
    dsimp only
    rw [hie]
    simp [cachePop]

/-- Witness for C4 at a concrete input: a three-track selection whose cache
entry is gone once the handler returns. -/
theorem batch_failure_isolation_witness :
    (handle_web_app_data
        (cachePut emptyCache 7 (mkSession demoEntries "PL" 2 2 "url"))
        7 ["dQw4w9WgXcQ", "abc123xyz00"]
        (fun _ => ⟨.error "boom", .ok "f.m4a", .ok (), 0, .ok ()⟩) 50).2 7
      = none := by
  refine batch_failure_isolation.2.2.2.2.2.2.2
    (cachePut emptyCache 7 (mkSession demoEntries "PL" 2 2 "url")) 7
    ["dQw4w9WgXcQ", "abc123xyz00"]
    (fun _ => ⟨.error "boom", .ok "f.m4a", .ok (), 0, .ok ()⟩) 50
    (mkSession demoEntries "PL" 2 2 "url") ?_ ?_ ?_
  · intro h
    simp at h
  · simp [cachePut]
  · intro h
    have : ("Artist - Song", (fun (_ : String) =>
        (⟨.error "boom", .ok "f.m4a", .ok (), 0, .ok ()⟩ : ItemWorld)) "dQw4w9WgXcQ")
        ∈ selectedTracks (mkSession demoEntries "PL" 2 2 "url")
          ["dQw4w9WgXcQ", "abc123xyz00"]
          (fun _ => ⟨.error "boom", .ok "f.m4a", .ok (), 0, .ok ()⟩) := by
      simp [selectedTracks, mkSession, buildEntriesDict, demoEntries]
    rw [h] at this
    simp at this

/-- The batch trace on the main path: the loop runs over the resolved
tracks and the handler appends a final summary carrying
`len(tracks_to_download)` — the number of tracks attempted, independent of
per-item outcomes. -/
theorem handle_web_app_data_trace (cache : Nat → Option Session) (user : Nat)
    (selected : List String) (world : String → ItemWorld) (maxMB : Nat)
    (sess : Session) (hsel : selected ≠ []) (hc : cache user = some sess)
    (htr : selectedTracks sess selected world ≠ []) :
    (handle_web_app_data cache user selected world maxMB).1
      = batchLoop maxMB (selectedTracks sess selected world).length 1
          (selectedTracks sess selected world)
        ++ [BotEvent.finalSummary (selectedTracks sess selected world).length] := by
  rw [handle_web_app_data, if_neg hsel, hc]
  have hie : (selectedTracks sess selected world).isEmpty = false :=
    List.isEmpty_eq_false.mpr htr
  dsimp only
  rw [hie]
  simp

/-- A one-track selection whose only item fails to download. -/
def cexSession : Session := mkSession [⟨"v1", "T1", 100⟩] "PL" 1 1 "u"

/-- External outcomes for the failing run: `get_video_info` raises. -/
def cexWorld : String → ItemWorld :=
  fun _ => ⟨.error "network down", .ok "f.m4a", .ok (), 0, .ok ()⟩

/-- The trace of the failing one-track batch. -/
def cexTrace : List BotEvent :=
  (handle_web_app_data (cachePut emptyCache 7 cexSession) 7 ["v1"] cexWorld 50).1

/-- C5 counterexample: with one selected track that fails, nothing is
delivered, yet the final summary still says 1 (it reports
`len(tracks_to_download)`, not the number completed); the summary with the
actually-completed count (0) never appears. -/
theorem final_summary_counterexample :
    deliveredCount cexTrace = 0 ∧
    BotEvent.finalSummary 1 ∈ cexTrace ∧
    BotEvent.finalSummary (deliveredCount cexTrace) ∉ cexTrace := by
  refine ⟨by decide, by decide, by decide⟩

/-- C5 (amended): on batch completion the final summary reports the number
of tracks attempted (`len(tracks_to_download)`), whatever the per-item
outcomes; it is the last event of the trace. -/
theorem final_summary_reports_attempted (cache : Nat → Option Session)
    (user : Nat) (selected : List String) (world : String → ItemWorld)
    (maxMB : Nat) (sess : Session) (hsel : selected ≠ [])
    (hc : cache user = some sess)
    (htr : selectedTracks sess selected world ≠ []) :
    (handle_web_app_data cache user selected world maxMB).1.getLast? =
      some (BotEvent.finalSummary (selectedTracks sess selected world).length) := by
  rw [handle_web_app_data_trace cache user selected world maxMB sess hsel hc htr]
  rw [List.getLast?_append]
  rfl

/-- Witness for C5 (amended) at the concrete failing run. -/
theorem final_summary_reports_attempted_witness :
    (handle_web_app_data (cachePut emptyCache 7 cexSession) 7 ["v1"] cexWorld 50).1.getLast?
      = some (BotEvent.finalSummary
          (selectedTracks cexSession ["v1"] cexWorld).length) := by
  apply final_summary_reports_attempted _ _ _ _ _ cexSession
  · intro h; simp at h
  · simp [cachePut]
  · intro h
    have : ("T1", cexWorld "v1") ∈ selectedTracks cexSession ["v1"] cexWorld := by
      simp [selectedTracks, cexSession, mkSession, buildEntriesDict]
    rw [h] at this
    simp at this

/-- C6: the lyrics lookup never raises — an HTTP 404 and any other transport
failure both return `none` as a normal outcome — and when the response holds
both synchronized and plain lyrics, the synchronized variant is preferred. -/
theorem fetch_lyrics_total_and_prefers_synced :
    (∀ code, fetch_lyrics (.httpError code) = none) ∧
    fetch_lyrics .otherFailure = none ∧
    (∀ synced plain : String, synced ≠ "" →
      fetch_lyrics (.success (some synced) (some plain)) = some synced) := by
  refine ⟨fun code => rfl, rfl, ?_⟩
  intro synced plain h
  simp [fetch_lyrics, pyOrStr, h]

/-- Witness for C6 at a concrete input. -/
theorem fetch_lyrics_total_and_prefers_synced_witness :
    fetch_lyrics (.success (some "[00:05.00] la la") (some "la la"))
      = some "[00:05.00] la la" :=
  fetch_lyrics_total_and_prefers_synced.2.2 "[00:05.00] la la" "la la" (by decide)

/-- C7: cover normalization flattens alpha/palette to opaque RGB (the output
never carries transparency), centre-crops a non-square image with offset
`(dim - size)/2` on the larger axis, downsamples squares larger than 600 to
exactly 600×600 and never upscales, and re-encodes as JPEG at quality 90;
1920×1080 RGB ↦ 600×600 RGB, 500×500 ↦ 500×500, RGBA ↦ opaque. -/
theorem normalize_cover_spec :
    (∀ img : CoverImage, modeHasAlphaOrPalette img.mode = true →
      (normalize_cover img).mode = PILMode.RGB) ∧
    (∀ img : CoverImage, modeHasAlphaOrPalette (normalize_cover img).mode = false) ∧
    (∀ w h : Nat, h < w → cropBox w h = ((w - h) / 2, 0, (w - h) / 2 + h, h)) ∧
    (∀ w h : Nat, w < h → cropBox w h = (0, (h - w) / 2, w, (h - w) / 2 + w)) ∧
    (∀ img : CoverImage,
      (normalize_cover img).width
        = (if 600 < min img.width img.height then 600 else min img.width img.height) ∧
      (normalize_cover img).height = (normalize_cover img).width) ∧
    (∀ img : CoverImage,
      (normalize_cover img).format = "JPEG" ∧ (normalize_cover img).quality = 90) ∧
    normalize_cover ⟨PILMode.RGB, 1920, 1080⟩
      = ⟨PILMode.RGB, 600, 600, "JPEG", 90⟩ ∧
    normalize_cover ⟨PILMode.RGB, 500, 500⟩
      = ⟨PILMode.RGB, 500, 500, "JPEG", 90⟩ ∧
    modeHasAlphaOrPalette (normalize_cover ⟨PILMode.RGBA, 800, 800⟩).mode = false := by
  have hmode : ∀ img : CoverImage, (normalize_cover img).mode
      = (if modeHasAlphaOrPalette img.mode then PILMode.RGB else img.mode) := by
    intro img
    show (shrinkTo600 (centerCropSquare (flattenMode img))).mode = _
    rw [shrinkTo600_mode, centerCropSquare_mode, flattenMode_mode]
  have hdims : ∀ img : CoverImage,
      (normalize_cover img).width
        = (if 600 < min img.width img.height then 600 else min img.width img.height) ∧
      (normalize_cover img).height = (normalize_cover img).width := by
    intro img
    obtain ⟨hw, hh⟩ := centerCropSquare_dims (flattenMode img)
    have hfw : (flattenMode img).width = img.width := by
      rw [flattenMode]; split_ifs <;> rfl
    have hfh : (flattenMode img).height = img.height := by
      rw [flattenMode]; split_ifs <;> rfl
    rw [hfw, hfh] at hw hh
    obtain ⟨hsw, hsh⟩ := shrinkTo600_dims (centerCropSquare (flattenMode img))
      (hw.trans hh.symm)
    constructor
    · show (shrinkTo600 (centerCropSquare (flattenMode img))).width = _
      rw [hsw, hw]
    · show (shrinkTo600 (centerCropSquare (flattenMode img))).height
        = (shrinkTo600 (centerCropSquare (flattenMode img))).width
      exact hsh
  refine ⟨?_, ?_, ?_, ?_, hdims, ?_, by decide, by decide, by decide⟩
  · intro img h
    rw [hmode img, if_pos h]
  · intro img
    rw [hmode img]
    split_ifs with h
    · rfl
    · simpa using h
  · intro w h hlt
    have hmin : min w h = h := Nat.min_eq_right (le_of_lt hlt)
    simp [cropBox, hmin, Nat.sub_self]
  · intro w h hlt
    have hmin : min w h = w := Nat.min_eq_left (le_of_lt hlt)
    simp [cropBox, hmin, Nat.sub_self]
  · intro img
    exact ⟨rfl, rfl⟩

/-- Witness for C7 at a concrete input. -/
theorem normalize_cover_spec_witness :
    (normalize_cover ⟨PILMode.LA, 1000, 700⟩).mode = PILMode.RGB ∧
    cropBox 1000 700 = (150, 0, 850, 700) ∧
    cropBox 700 1000 = (0, 150, 700, 850) := by
  refine ⟨normalize_cover_spec.1 ⟨PILMode.LA, 1000, 700⟩ (by decide), ?_, ?_⟩
  · have h := normalize_cover_spec.2.2.1 1000 700 (by omega)
    rw [h]
  · have h := normalize_cover_spec.2.2.2.1 700 1000 (by omega)
    rw [h]

/-- C9: the invariant "dict keys = ids of the ordered list" holds for every
session in the cache, initially and after every operation: creation or
overwrite by a playlist resolution (`cachePut` of `mkSession`), deletion on
batch completion (`cachePop`), and the whole `handle_web_app_data` handler
(whose reads never mutate sessions and whose only write is the pop). -/
theorem session_cache_ids_invariant :
    cacheIdsInv emptyCache ∧
    (∀ c u entries t tot ps url, cacheIdsInv c →
      cacheIdsInv (cachePut c u (mkSession entries t tot ps url))) ∧
    (∀ c u, cacheIdsInv c → cacheIdsInv (cachePop c u)) ∧
    (∀ c u selected world maxMB, cacheIdsInv c →
      cacheIdsInv (handle_web_app_data c u selected world maxMB).2) := by
  have hput : ∀ c u entries t tot ps url, cacheIdsInv c →
      cacheIdsInv (cachePut c u (mkSession entries t tot ps url)) := by
    intro c u entries t tot ps url hc v s hv
    rw [cachePut] at hv
    by_cases hvu : v = u
    · rw [if_pos hvu] at hv
      injection hv with hv
      subst hv
      intro k
      exact buildEntriesDict_isSome entries k
    · rw [if_neg hvu] at hv
      exact hc v s hv
  have hpop : ∀ c u, cacheIdsInv c → cacheIdsInv (cachePop c u) := by
    intro c u hc v s hv
    rw [cachePop] at hv
    by_cases hvu : v = u
    · rw [if_pos hvu] at hv; exact absurd hv (by simp)
    · rw [if_neg hvu] at hv; exact hc v s hv
  refine ⟨fun u s h => absurd h (by simp [emptyCache]), hput, hpop, ?_⟩
  intro c u selected world maxMB hc
  rw [handle_web_app_data]
  by_cases hsel : selected = []
  · rw [if_pos hsel]; exact hc
  · rw [if_neg hsel]
    cases hcu : c u with
    | none => exact hc
    | some sess =>
      dsimp only
      by_cases hie : (selectedTracks sess selected world).isEmpty = true
      · rw [if_pos hie]; exact hc
      · rw [if_neg hie]; exact hpop c u hc

/-- Witness for C9 at a concrete input. -/
theorem session_cache_ids_invariant_witness :
    cacheIdsInv (cachePut emptyCache 7 (mkSession demoEntries "PL" 2 2 "url")) :=
  session_cache_ids_invariant.2.1 emptyCache 7 demoEntries "PL" 2 2 "url"
    session_cache_ids_invariant.1

end YTMD
